import Mathlib

/-!
# Formal model of the velocedb reactive JSON store

A shallow embedding of the persistence core of the `velocedb` repository
(`src/index.js`, the legacy JavaScript implementation, and
`src/src/index.ts`, the current TypeScript implementation), together with
theorems settling the specification claims about it.

The embedding covers:

* the save scheduler (`save` / `handleSaveOperation`): debounce timer,
  coalesce counter, in-flight guard, forced saves;
* the physical save step (`performSave`) of both implementations, with and
  without guaranteed cleanup;
* the proxy trap handler (`config.handler` / `createProxyHandler`): which
  operations notify the `onUpdate` hook and which request a save;
* the JSON codec used by the store (`JSON.stringify` with indentation and
  `JSON.parse` / `sjson.parse`), with a full round-trip proof;
* the cycle-tolerant serializer `json-stringify-safe` used by the
  TypeScript implementation, over a heap model that can express cyclic
  object graphs.
-/

namespace Veloce

/-! ## Configuration (constructor defaults of both implementations) -/

/-- Store configuration. Mirrors the defaults set in the constructor of
`src/src/index.ts` (lines 130-141) and `src/index.js` (lines 12-31).
`hasOnUpdate` models whether the optional `onUpdate` callback is configured
(`config.onUpdate` is `undefined` by default). -/
structure Config where
  indentation : Nat := 2
  autoSave : Bool := true
  noProxy : Bool := false
  autoSaveDelayMs : Nat := 750
  saveRetryTimeoutMs : Nat := 100
  hasOnUpdate : Bool := false
  maxAutoSaveTimeouts : Nat := 10
  sync : Bool := false
  throwErrors : Bool := true
deriving Repr, DecidableEq

/-! ## Save scheduler state

The scheduler state is the triple of instance fields
`isSaving` / `saveTimeout` / `saveTimeoutCount` of `src/src/index.ts`
(lines 94-103); in `src/index.js` the same three fields are `this.saving`,
`this.saveTimeout` and `this.saveTimeoutsCount` (absent fields model as
`false` / `0`). The timer handle is modelled by whether a timer is armed. -/

structure SchedState where
  isSaving : Bool
  saveTimeoutArmed : Bool
  saveTimeoutCount : Nat
deriving Repr, DecidableEq

/-- The all-clear state: no write in flight, no timer armed, counter zero. -/
def idleState : SchedState := ⟨false, false, 0⟩

/-- What a call to the scheduler decides to do with the physical save:
run it now, re-check after `saveRetryTimeoutMs`, or arm the debounce timer
for `autoSaveDelayMs`. -/
inductive SaveAction
  | runSave
  | retryLater
  | armTimer
deriving Repr, DecidableEq

/-- The scheduling logic of `handleSaveOperation` in `src/src/index.ts`
(lines 437-478); `save(force)` in `src/index.js` (lines 224-241) has the
same branch structure. Returns the decided action together with the
updated scheduler state (the state changes performed by the dispatch
itself, not those of the physical save). -/
def handleSaveOperation (cfg : Config) (st : SchedState) (force : Bool) :
    SaveAction × SchedState :=
  if force then
    (.runSave, st)
  else if st.isSaving then
    (.retryLater, st)
  else if !cfg.autoSave then
    (.runSave, st)
  else if st.saveTimeoutArmed then
    let count := st.saveTimeoutCount + 1
    if cfg.maxAutoSaveTimeouts ≤ count then
      (.runSave, { st with saveTimeoutArmed := false, saveTimeoutCount := count })
    else
      (.armTimer, { st with saveTimeoutCount := count })
  else
    (.armTimer, { st with saveTimeoutArmed := true })

/-- `cleanupSaveState` of `src/src/index.ts` (lines 483-493): clear the
saving flag, clear any armed timer, reset the coalesce counter. -/
def cleanupSaveState (st : SchedState) : SchedState :=
  { st with isSaving := false, saveTimeoutArmed := false, saveTimeoutCount := 0 }

/-- Outcome of one invocation of the physical save step: the scheduler
state afterwards, whether the file write completed, and whether an
exception propagated to the caller. -/
structure SaveOutcome where
  st : SchedState
  wroteFile : Bool
  threw : Bool
deriving Repr, DecidableEq

/-- The physical save step `performSave` of `src/src/index.ts`
(lines 365-391): set `isSaving`, attempt the write (modelled by the
`writeOk` input), rethrow on failure when `throwErrors` is set, and run
`cleanupSaveState` in a `finally` block in every case. -/
def performSaveTs (cfg : Config) (st : SchedState) (writeOk : Bool) : SaveOutcome :=
  let stSaving := { st with isSaving := true }
  if writeOk then
    { st := cleanupSaveState stSaving, wroteFile := true, threw := false }
  else
    { st := cleanupSaveState stSaving, wroteFile := false, threw := cfg.throwErrors }

/-- The inner `save` closure of `src/index.js` (lines 200-222): set
`this.saving`, attempt the write, and only after a successful write
delete `saving`, `saveTimeout` and `saveTimeoutsCount`. There is no
try/finally: a throwing `fs.writeFileSync` skips the cleanup entirely. -/
def performSaveJs (st : SchedState) (writeOk : Bool) : SaveOutcome :=
  let stSaving := { st with isSaving := true }
  if writeOk then
    { st := ⟨false, false, 0⟩, wroteFile := true, threw := false }
  else
    { st := stSaving, wroteFile := false, threw := true }

/-! ## Burst of auto-save requests (debounce coalescing) -/

/-- One auto-save request (a mutation with `autoSave` on, or an explicit
non-forced `save()` call) in the synchronous implementation: dispatch via
`handleSaveOperation`; if the decision is to save now, the physical save
runs to completion and leaves the cleaned-up state. -/
def autoSaveStep (cfg : Config) (st : SchedState) : SaveAction × SchedState :=
  let (a, st') := handleSaveOperation cfg st false
  match a with
  | .runSave => (a, cleanupSaveState st')
  | _ => (a, st')

/-- The actions taken by a back-to-back burst of `n` auto-save requests
(each issued before any armed timer fires). -/
def burst (cfg : Config) : SchedState → Nat → List SaveAction
  | _, 0 => []
  | st, n + 1 =>
    let (a, st') := autoSaveStep cfg st
    a :: burst cfg st' n

/-- Scheduler state with no write in flight, the debounce timer armed, and
coalesce counter `c`. -/
def armedState (c : Nat) : SchedState := ⟨false, true, c⟩

/-! ## Proxy trap handler

`src/index.js` installs a 13-trap handler (`config.handler`, lines 32-188);
`src/src/index.ts` builds the same 13 traps in `createProxyHandler`
(lines 183-358). Every trap forwards the operation via `Reflect`, then
notifies the `onUpdate` hook when one is configured; the six mutating
traps additionally call `save()` when `autoSave` is enabled. -/

/-- The thirteen intercepted operations, one per trap installed by the
handler, with the source's trap names. -/
inductive TrapOp
  | get
  | set
  | has
  | deleteProperty
  | ownKeys
  | getOwnPropertyDescriptor
  | defineProperty
  | preventExtensions
  | isExtensible
  | getPrototypeOf
  | setPrototypeOf
  | apply
  | construct
deriving Repr, DecidableEq

/-- The method-name string each trap passes to `onUpdate`. -/
def opName : TrapOp → String
  | .get => "get"
  | .set => "set"
  | .has => "has"
  | .deleteProperty => "deleteProperty"
  | .ownKeys => "ownKeys"
  | .getOwnPropertyDescriptor => "getOwnPropertyDescriptor"
  | .defineProperty => "defineProperty"
  | .preventExtensions => "preventExtensions"
  | .isExtensible => "isExtensible"
  | .getPrototypeOf => "getPrototypeOf"
  | .setPrototypeOf => "setPrototypeOf"
  | .apply => "apply"
  | .construct => "construct"

/-- Observable side effects of a trap beyond the forwarded `Reflect`
operation: an `onUpdate` invocation with the trap's method name, or a
save request handed to the scheduler. -/
inductive Event
  | update (method : String)
  | saveRequested
deriving Repr, DecidableEq

/-- `this.config.onUpdate?.(method, result)`: one `onUpdate` invocation
when the hook is configured, nothing otherwise. -/
def notifyUpdate (cfg : Config) (method : String) : List Event :=
  if cfg.hasOnUpdate then [.update method] else []

/-- `if (this.config.autoSave) this.save()`: the save request issued by
the mutating traps. -/
def autoSaveRequest (cfg : Config) : List Event :=
  if cfg.autoSave then [.saveRequested] else []

/-- The effects of one trap firing, trap by trap as written in
`src/index.js` lines 32-188 and `src/src/index.ts` lines 183-358: every
trap notifies `onUpdate`; only `set`, `deleteProperty`, `defineProperty`,
`setPrototypeOf`, `apply` and `construct` follow it with a save request
guarded by `autoSave`. -/
def runTrap (cfg : Config) (op : TrapOp) : List Event :=
  match op with
  | .get => notifyUpdate cfg "get"
  | .set => notifyUpdate cfg "set" ++ autoSaveRequest cfg
  | .has => notifyUpdate cfg "has"
  | .deleteProperty => notifyUpdate cfg "deleteProperty" ++ autoSaveRequest cfg
  | .ownKeys => notifyUpdate cfg "ownKeys"
  | .getOwnPropertyDescriptor => notifyUpdate cfg "getOwnPropertyDescriptor"
  | .defineProperty => notifyUpdate cfg "defineProperty" ++ autoSaveRequest cfg
  | .preventExtensions => notifyUpdate cfg "preventExtensions"
  | .isExtensible => notifyUpdate cfg "isExtensible"
  | .getPrototypeOf => notifyUpdate cfg "getPrototypeOf"
  | .setPrototypeOf => notifyUpdate cfg "setPrototypeOf" ++ autoSaveRequest cfg
  | .apply => notifyUpdate cfg "apply" ++ autoSaveRequest cfg
  | .construct => notifyUpdate cfg "construct" ++ autoSaveRequest cfg

/-- The claim's list of mutating operation kinds (write-property,
delete-property, define-property, set-prototype-link, invoke-as-function,
construct-as-constructor), stated from the specification's words for
comparison with the per-trap behaviour above. -/
def isMutatingOp : TrapOp → Bool
  | .set => true
  | .deleteProperty => true
  | .defineProperty => true
  | .setPrototypeOf => true
  | .apply => true
  | .construct => true
  | _ => false

/-- How `this.data` is exposed: the raw target (`noProxy` / direct mode)
or the target wrapped in the trap handler. `src/index.js` line 194,
`src/src/index.ts` lines 163-168. -/
inductive DataHandle
  | raw
  | proxied
deriving Repr, DecidableEq

/-- `this.data = this.config.noProxy ? target : createNestedProxies(...)`. -/
def dataHandleOf (cfg : Config) : DataHandle :=
  if cfg.noProxy then .raw else .proxied

/-- Effects observable from one operation performed through `this.data`:
on the raw target no interception layer exists, so the plain operation
happens with no hook call and no save request; on the proxied target the
corresponding trap fires. -/
def mutationEvents (cfg : Config) (h : DataHandle) (op : TrapOp) : List Event :=
  match h with
  | .raw => []
  | .proxied => runTrap cfg op

/-- Effects of a sequence of operations performed through `this.data`. -/
def mutationsEvents (cfg : Config) (h : DataHandle) (ops : List TrapOp) :
    List Event :=
  (ops.map (mutationEvents cfg h)).flatten

/-! ## Value trees and the serializer's traversal of the proxied root -/

/-- A JSON value tree: scalars, arrays and objects (association lists of
string keys). This is the root value a store manages; numbers are
modelled as integers. -/
inductive JsonVal
  | null
  | bool (b : Bool)
  | num (n : Int)
  | str (s : String)
  | arr (elems : List JsonVal)
  | obj (fields : List (String × JsonVal))
deriving Repr, BEq

/-- The `getOwnPropertyDescriptor` trap firings EnumerableOwnPropertyNames
performs, one per own key, when the serializer enumerates an object under
the proxy. -/
def fieldsGopdEvents (cfg : Config) : List (String × JsonVal) → List Event
  | [] => []
  | _ :: fs =>
    notifyUpdate cfg "getOwnPropertyDescriptor" ++ fieldsGopdEvents cfg fs

mutual

/-- Events fired while the serializer handles a container value it has
just fetched through the proxy during a physical save
(`JSON.stringify(this.data, ...)`, `src/index.js` line 213,
`src/src/index.ts` line 378). Per ECMA-262 SerializeJSONProperty, every
object-typed value — the proxied root included — first has its `toJSON`
member looked up, a property read through the `get` trap. An object is
then enumerated (one `ownKeys` trap firing, then one
`getOwnPropertyDescriptor` trap firing per key) and each field is read
through the `get` trap and serialized in turn; an array has its `length`
read through the `get` trap and then each index read and serialized.
Scalars fire nothing. Every trap firing notifies `onUpdate` with the
trap's name, and the `get` trap hands nested containers back wrapped, so
the walk recurses through the interception layer. -/
def serializeValEvents (cfg : Config) : JsonVal → List Event
  | .arr es =>
    notifyUpdate cfg "get" ++
      (notifyUpdate cfg "get" ++ serializeListEvents cfg es)
  | .obj fs =>
    notifyUpdate cfg "get" ++
      ((notifyUpdate cfg "ownKeys" ++ fieldsGopdEvents cfg fs) ++
        serializeFieldsEvents cfg fs)
  | _ => []

/-- Per-index serialization of an array's elements: each element is read
through the `get` trap and then handled. -/
def serializeListEvents (cfg : Config) : List JsonVal → List Event
  | [] => []
  | v :: vs =>
    notifyUpdate cfg "get" ++ serializeValEvents cfg v ++
      serializeListEvents cfg vs

/-- Per-key serialization of an object's fields: each field is read
through the `get` trap and its value handled. -/
def serializeFieldsEvents (cfg : Config) : List (String × JsonVal) → List Event
  | [] => []
  | kv :: fs =>
    notifyUpdate cfg "get" ++ serializeValEvents cfg kv.2 ++
      serializeFieldsEvents cfg fs

end

mutual

/-- Number of properties (array elements and object fields, at every
nesting level) the serializer visits in a value tree. -/
def totalProps : JsonVal → Nat
  | .arr es => totalPropsList es
  | .obj fs => totalPropsFields fs
  | _ => 0

/-- Property count of an array's elements. -/
def totalPropsList : List JsonVal → Nat
  | [] => 0
  | v :: vs => 1 + totalProps v + totalPropsList vs

/-- Property count of an object's fields. -/
def totalPropsFields : List (String × JsonVal) → Nat
  | [] => 0
  | kv :: fs => 1 + totalProps kv.2 + totalPropsFields fs

end

mutual

/-- Number of containers (objects and arrays, the root included) in a
value tree: the serializer performs one `toJSON` lookup through the `get`
trap per container. -/
def totalContainers : JsonVal → Nat
  | .arr es => 1 + totalContainersList es
  | .obj fs => 1 + totalContainersFields fs
  | _ => 0

/-- Container count over an array's elements. -/
def totalContainersList : List JsonVal → Nat
  | [] => 0
  | v :: vs => totalContainers v + totalContainersList vs

/-- Container count over an object's field values. -/
def totalContainersFields : List (String × JsonVal) → Nat
  | [] => 0
  | kv :: fs => totalContainers kv.2 + totalContainersFields fs

end

mutual

/-- Number of arrays in a value tree: the serializer reads each array's
`length` through the `get` trap. -/
def totalArrays : JsonVal → Nat
  | .arr es => 1 + totalArraysList es
  | .obj fs => totalArraysFields fs
  | _ => 0

/-- Array count over an array's elements. -/
def totalArraysList : List JsonVal → Nat
  | [] => 0
  | v :: vs => totalArrays v + totalArraysList vs

/-- Array count over an object's field values. -/
def totalArraysFields : List (String × JsonVal) → Nat
  | [] => 0
  | kv :: fs => totalArrays kv.2 + totalArraysFields fs

end

/-- Count of `get`-trap `onUpdate` notifications in an event list. -/
def countGetUpdates (evs : List Event) : Nat :=
  evs.countP (fun e => e == Event.update "get")

theorem autoSaveStep_idle (cfg : Config) (h : cfg.autoSave = true) :
    autoSaveStep cfg idleState = (.armTimer, armedState 0) := by
  simp [autoSaveStep, handleSaveOperation, idleState, armedState, h]

theorem autoSaveStep_armed_rearm (cfg : Config) (c : Nat)
    (h : cfg.autoSave = true) (hc : ¬ cfg.maxAutoSaveTimeouts ≤ c + 1) :
    autoSaveStep cfg (armedState c) = (.armTimer, armedState (c + 1)) := by
  simp [autoSaveStep, handleSaveOperation, armedState, h, hc]

theorem autoSaveStep_armed_flush (cfg : Config) (c : Nat)
    (h : cfg.autoSave = true) (hc : cfg.maxAutoSaveTimeouts ≤ c + 1) :
    autoSaveStep cfg (armedState c) = (.runSave, idleState) := by
  simp [autoSaveStep, handleSaveOperation, armedState, cleanupSaveState,
    idleState, h, hc]

theorem burst_armed_flush (cfg : Config) (h : cfg.autoSave = true) :
    ∀ n c, c + n + 1 = cfg.maxAutoSaveTimeouts →
      burst cfg (armedState c) (n + 1) =
        List.replicate n SaveAction.armTimer ++ [SaveAction.runSave] := by
  intro n
  induction n with
  | zero =>
    intro c hc
    have hflush : cfg.maxAutoSaveTimeouts ≤ c + 1 := by omega
    simp [burst, autoSaveStep_armed_flush cfg c h hflush]
  | succ m ih =>
    intro c hc
    have hre : ¬ cfg.maxAutoSaveTimeouts ≤ c + 1 := by omega
    have step := autoSaveStep_armed_rearm cfg c h hre
    calc burst cfg (armedState c) (m + 2)
        = SaveAction.armTimer :: burst cfg (armedState (c + 1)) (m + 1) := by
          simp [burst, step]
      _ = SaveAction.armTimer ::
            (List.replicate m SaveAction.armTimer ++ [SaveAction.runSave]) := by
          rw [ih (c + 1) (by omega)]
      _ = List.replicate (m + 1) SaveAction.armTimer ++ [SaveAction.runSave] := by
          simp [List.replicate_succ]

/-! ## JSON text primitives

Shared by the codec model (`JSON.stringify` / `JSON.parse`, the external
structured-text collaborators of §6 of the design) and by the
`json-stringify-safe` model below. Text is modelled as `List Char`. -/

/-- The JSON whitespace characters. -/
def isWsChar (c : Char) : Bool :=
  c = ' ' || c = '\n' || c = '\t' || c = '\r'

/-- Skip leading whitespace. -/
def skipWs (cs : List Char) : List Char := cs.dropWhile isWsChar

/-- The newline-plus-indentation `JSON.stringify` emits after an opening
bracket and after each comma when a positive `space` is configured
(nothing in compact mode). -/
def openPad (gap depth : Nat) : List Char :=
  if gap = 0 then [] else '\n' :: List.replicate ((depth + 1) * gap) ' '

/-- The newline-plus-indentation emitted before a closing bracket. -/
def closePad (gap depth : Nat) : List Char :=
  if gap = 0 then [] else '\n' :: List.replicate (depth * gap) ' '

/-- The space after a key's colon in indented mode. -/
def colonPad (gap : Nat) : List Char :=
  if gap = 0 then [] else [' ']

/-- Decimal digits helper with explicit fuel (the fuel is structural
bookkeeping only; `natDigits` supplies `n + 1`, always enough). -/
def natDigitsF : Nat → Nat → List Char
  | 0, _ => []
  | fuel + 1, n =>
    if n < 10 then [Nat.digitChar n]
    else natDigitsF fuel (n / 10) ++ [Nat.digitChar (n % 10)]

/-- Decimal digits of a natural number, most significant first. -/
def natDigits (n : Nat) : List Char := natDigitsF (n + 1) n

/-- Canonical decimal rendering of an integer, as `JSON.stringify`
produces for integral numbers. -/
def printInt (n : Int) : List Char :=
  if n < 0 then '-' :: natDigits (-n).toNat else natDigits n.toNat

/-- The escape `JSON.stringify` applies to one string character:
quote, backslash and the short control escapes get two-character escapes,
the remaining control characters become `\u00xx`, everything else is
emitted verbatim. -/
def escapeChar (c : Char) : List Char :=
  if c = '"' then ['\\', '"']
  else if c = '\\' then ['\\', '\\']
  else if c = '\x08' then ['\\', 'b']
  else if c = '\x0c' then ['\\', 'f']
  else if c = '\n' then ['\\', 'n']
  else if c = '\r' then ['\\', 'r']
  else if c = '\t' then ['\\', 't']
  else if c.toNat < 32 then
    ['\\', 'u', '0', '0', Nat.digitChar (c.toNat / 16), Nat.digitChar (c.toNat % 16)]
  else [c]

/-- Escape every character of a string body. -/
def escapeString : List Char → List Char
  | [] => []
  | c :: cs => escapeChar c ++ escapeString cs

/-- A JSON string literal: quoted, escaped body. -/
def jsonQuote (s : List Char) : List Char :=
  '"' :: escapeString s ++ ['"']

/-! ## Heap model of object graphs and the cycle-tolerant serializer

`src/src/index.ts` line 4 imports `stringify` from `json-stringify-safe`
and `save` uses it for the physical write (lines 379-383). That library
wraps `JSON.stringify` with a replacer that keeps a stack of the objects
on the current path and, on meeting a value already on the stack, emits
the string `"[Circular ~]"` (for a reference to the root) or
`"[Circular ~.path]"` instead of recursing. To express cyclic values the
value graph is modelled with explicit object identities in a heap. -/

/-- A heap value: a scalar, or a reference to a heap object. -/
inductive HVal
  | hnull
  | hbool (b : Bool)
  | hnum (n : Int)
  | hstr (s : String)
  | href (id : Nat)
deriving Repr, DecidableEq

/-- A heap: object `id` is the association list `objs[id]`. Cyclic object
graphs are expressed by `href`s pointing back up the path. -/
structure Heap where
  objs : List (List (String × HVal))
deriving Repr

/-- The separator of the circular-path placeholder. -/
def circularDot : String := "."

/-- The characters of the literal `null`. -/
def nullChars : List Char := ['n', 'u', 'l', 'l']

/-- The characters of the literal `true`. -/
def trueChars : List Char := ['t', 'r', 'u', 'e']

/-- The characters of the literal `false`. -/
def falseChars : List Char := ['f', 'a', 'l', 's', 'e']

/-- Marker for a dangling heap reference (not a real JS condition; it
cannot arise from an actual object graph). -/
def danglingErrorMsg : String := "dangling reference"

/-- The placeholder `json-stringify-safe` substitutes for a reference to
the serialization root. -/
def circularRoot : String := "[Circular ~]"

/-- The placeholder text for a cyclic reference: the root form when the
target is the bottom of the stack, otherwise the keyed-path form
`[Circular ~.k1.k2]` built from the keys leading to the target. -/
def circularText (stack : List Nat) (keys : List String) (id : Nat) :
    List Char :=
  if stack.head? = some id then circularRoot.data
  else
    ("[Circular ~." ++
      String.intercalate circularDot (keys.take (List.indexOf id stack)) ++
        "]").data

/-- The `json-stringify-safe` serialization of a heap value: scalars
render as JSON scalars; a reference already on the stack renders as the
quoted circular placeholder instead of recursing; otherwise the object is
rendered like `JSON.stringify` with the configured indentation, pushing
the id and key onto the stack for the fields. `none` only on a dangling
reference or fuel exhaustion, never on a cycle. -/
def stringifySafeVal (h : Heap) (g : Nat) :
    Nat → List Nat → List String → Nat → HVal → Option (List Char)
  | _, _, _, _, .hnull => some nullChars
  | _, _, _, _, .hbool true => some trueChars
  | _, _, _, _, .hbool false => some falseChars
  | _, _, _, _, .hnum n => some (printInt n)
  | _, _, _, _, .hstr s => some (jsonQuote s.data)
  | 0, stack, keys, _, .href id =>
    if stack.contains id then some (jsonQuote (circularText stack keys id))
    else
      match h.objs.get? id with
      | some [] => some ['\x7b', '\x7d']
      | _ => none
  | fuel + 1, stack, keys, depth, .href id =>
    if stack.contains id then some (jsonQuote (circularText stack keys id))
    else
      match h.objs.get? id with
      | none => none
      | some [] => some ['\x7b', '\x7d']
      | some fields =>
        (fields.mapM (fun kv =>
          (stringifySafeVal h g fuel (stack ++ [id]) (keys ++ [kv.1])
            (depth + 1) kv.2).map
            (fun txt => jsonQuote kv.1.data ++ ':' :: colonPad g ++ txt))).map
          (fun parts =>
            '\x7b' :: openPad g depth ++
              (List.intersperse (',' :: openPad g depth) parts).flatten ++
                closePad g depth ++ ['\x7d'])

/-- The Node error message of plain `JSON.stringify` on a cycle. -/
def circularErrorMsg : String := "Converting circular structure to JSON"

/-- Plain `JSON.stringify` over the heap model, as used by the legacy
implementation (`src/index.js` line 213): identical rendering, but a
reference already on the stack raises a `TypeError` instead of being
substituted. -/
def jsStringifyHeapVal (h : Heap) (g : Nat) :
    Nat → List Nat → Nat → HVal → Except String (List Char)
  | _, _, _, .hnull => .ok nullChars
  | _, _, _, .hbool true => .ok trueChars
  | _, _, _, .hbool false => .ok falseChars
  | _, _, _, .hnum n => .ok (printInt n)
  | _, _, _, .hstr s => .ok (jsonQuote s.data)
  | 0, stack, _, .href id =>
    if stack.contains id then .error circularErrorMsg
    else
      match h.objs.get? id with
      | some [] => .ok ['\x7b', '\x7d']
      | _ => .error danglingErrorMsg
  | fuel + 1, stack, depth, .href id =>
    if stack.contains id then .error circularErrorMsg
    else
      match h.objs.get? id with
      | none => .error danglingErrorMsg
      | some [] => .ok ['\x7b', '\x7d']
      | some fields =>
        (fields.mapM (fun kv =>
          (jsStringifyHeapVal h g fuel (stack ++ [id]) (depth + 1)
            kv.2).map
            (fun txt => jsonQuote kv.1.data ++ ':' :: colonPad g ++ txt))).map
          (fun parts =>
            '\x7b' :: openPad g depth ++
              (List.intersperse (',' :: openPad g depth) parts).flatten ++
                closePad g depth ++ ['\x7d'])

/-- Entry point of the `json-stringify-safe` model: empty stack, fuel
ample for any acyclic path through the heap. -/
def stringifySafeTop (h : Heap) (g : Nat) (v : HVal) : Option (List Char) :=
  stringifySafeVal h g (h.objs.length + 1) [] [] 0 v

/-- Entry point of the plain `JSON.stringify` heap model. -/
def jsStringifyHeapTop (h : Heap) (g : Nat) (v : HVal) :
    Except String (List Char) :=
  jsStringifyHeapVal h g (h.objs.length + 1) [] 0 v

/-- A one-object heap whose single object refers to itself:
`const a = {}; a.self = a`. -/
def cyclicHeap : Heap := ⟨[[("self", HVal.href 0)]]⟩

/-! ## The JSON codec

`src/index.js` line 213 writes `JSON.stringify(this.data, null,
this.config.space)` and line 190 reads back with `JSON.parse`;
`src/src/index.ts` uses `sjson.parse` (plain JSON parsing with prototype
poisoning protection) for reads. The codec is modelled over `JsonVal`:
a printer faithful to `JSON.stringify`'s indentation format and a
recursive-descent parser. The parser carries explicit fuel (structural
recursion over nested values is expressed through it); `jsonParse`
supplies fuel ample for its input. -/

/-- Numeric value of a digit run (fold of `value * 10 + digit`). -/
def digitsVal (ds : List Char) : Nat :=
  ds.foldl (fun a c => a * 10 + (c.toNat - '0'.toNat)) 0

/-- Value of one hexadecimal digit, upper or lower case. -/
def hexVal (c : Char) : Option Nat :=
  if '0' ≤ c ∧ c ≤ '9' then some (c.toNat - '0'.toNat)
  else if 'a' ≤ c ∧ c ≤ 'f' then some (c.toNat - 'a'.toNat + 10)
  else if 'A' ≤ c ∧ c ≤ 'F' then some (c.toNat - 'A'.toNat + 10)
  else none

/-- The character denoted by a two-character JSON escape. -/
def unescapeChar (c : Char) : Option Char :=
  if c = '"' then some '"'
  else if c = '\\' then some '\\'
  else if c = '/' then some '/'
  else if c = 'b' then some '\x08'
  else if c = 'f' then some '\x0c'
  else if c = 'n' then some '\n'
  else if c = 'r' then some '\r'
  else if c = 't' then some '\t'
  else none

/-- Parse the body of a JSON string up to and including the closing
quote, undoing the escapes; returns the decoded characters and the
remaining input. -/
def parseStringBody : List Char → Option (List Char × List Char)
  | [] => none
  | c :: rest =>
    if c = '"' then some ([], rest)
    else if c = '\\' then
      match rest with
      | [] => none
      | e :: r =>
        if e = 'u' then
          match r with
          | h1 :: h2 :: h3 :: h4 :: r2 =>
            match hexVal h1, hexVal h2, hexVal h3, hexVal h4 with
            | some a, some b, some a2, some b2 =>
              (parseStringBody r2).map
                (fun p =>
                  (Char.ofNat (((a * 16 + b) * 16 + a2) * 16 + b2) :: p.1, p.2))
            | _, _, _, _ => none
          | _ => none
        else
          match unescapeChar e with
          | some ch => (parseStringBody r).map (fun p => (ch :: p.1, p.2))
          | none => none
    else
      (parseStringBody rest).map (fun p => (c :: p.1, p.2))

mutual

/-- The output of `JSON.stringify(value, null, space)` for a value tree:
scalars by their literals, arrays and objects with the bracket, comma and
indentation placement of the reference algorithm (`gap = 0` is the
compact form used when `space` is 0). -/
def printVal (gap depth : Nat) : JsonVal → List Char
  | .null => nullChars
  | .bool true => trueChars
  | .bool false => falseChars
  | .num n => printInt n
  | .str s => jsonQuote s.data
  | .arr [] => ['[', ']']
  | .arr (v :: vs) =>
    '[' :: openPad gap depth ++ printVal gap (depth + 1) v ++
      printTailA gap depth vs
  | .obj [] => ['\x7b', '\x7d']
  | .obj ((k, v) :: fs) =>
    '\x7b' :: openPad gap depth ++ printField gap depth k v ++
      printTailO gap depth fs
termination_by v => sizeOf v

/-- One object member: quoted key, colon, optional space, value. -/
def printField (gap depth : Nat) (k : String) (v : JsonVal) : List Char :=
  jsonQuote k.data ++ ':' :: colonPad gap ++ printVal gap (depth + 1) v
termination_by sizeOf v + 1

/-- The rendering of an array's remaining elements and closing bracket. -/
def printTailA (gap depth : Nat) : List JsonVal → List Char
  | [] => closePad gap depth ++ [']']
  | v :: vs =>
    ',' :: openPad gap depth ++ printVal gap (depth + 1) v ++
      printTailA gap depth vs
termination_by vs => sizeOf vs

/-- The rendering of an object's remaining members and closing brace. -/
def printTailO (gap depth : Nat) : List (String × JsonVal) → List Char
  | [] => closePad gap depth ++ ['\x7d']
  | (k, v) :: fs =>
    ',' :: openPad gap depth ++ printField gap depth k v ++
      printTailO gap depth fs
termination_by fs => sizeOf fs + 1

end

mutual

/-- Parser fuel sufficient for one value: one unit per parser call made
while consuming the value's printed form (scalars need one unit, each
container one unit plus its contents'). -/
def jfuel : JsonVal → Nat
  | .arr es => 1 + listFuel es
  | .obj fs => 1 + fieldsFuel fs
  | _ => 1
termination_by v => sizeOf v

/-- Parser fuel for an array's element list. -/
def listFuel : List JsonVal → Nat
  | [] => 1
  | v :: vs => 1 + jfuel v + listFuel vs
termination_by vs => sizeOf vs

/-- Parser fuel for an object's member list. -/
def fieldsFuel : List (String × JsonVal) → Nat
  | [] => 1
  | (_, v) :: fs => 1 + jfuel v + fieldsFuel fs
termination_by fs => sizeOf fs

end

mutual

/-- Recursive-descent JSON value parser (fuel-indexed). Accepts the
grammar `JSON.parse` accepts restricted to integral numbers: literals,
strings with escapes, arrays and objects with arbitrary interleaved
whitespace. -/
def parseVal : Nat → List Char → Option (JsonVal × List Char)
  | 0, _ => none
  | fuel + 1, cs =>
    match cs with
    | [] => none
    | c :: rest =>
      if c = 'n' then
        match rest with
        | 'u' :: 'l' :: 'l' :: r => some (.null, r)
        | _ => none
      else if c = 't' then
        match rest with
        | 'r' :: 'u' :: 'e' :: r => some (.bool true, r)
        | _ => none
      else if c = 'f' then
        match rest with
        | 'a' :: 'l' :: 's' :: 'e' :: r => some (.bool false, r)
        | _ => none
      else if c = '"' then
        (parseStringBody rest).map (fun p => (.str (String.mk p.1), p.2))
      else if c = '[' then
        match skipWs rest with
        | [] => none
        | c2 :: r2 =>
          if c2 = ']' then some (.arr [], r2)
          else (parseItems fuel (c2 :: r2)).map (fun p => (.arr p.1, p.2))
      else if c = '\x7b' then
        match skipWs rest with
        | [] => none
        | c2 :: r2 =>
          if c2 = '\x7d' then some (.obj [], r2)
          else (parseFields fuel (c2 :: r2)).map (fun p => (.obj p.1, p.2))
      else if c = '-' then
        match rest.takeWhile Char.isDigit with
        | [] => none
        | ds =>
          some (.num (-(digitsVal ds : Int)), rest.dropWhile Char.isDigit)
      else if c.isDigit then
        some (.num (digitsVal (c :: rest.takeWhile Char.isDigit) : Int),
          rest.dropWhile Char.isDigit)
      else none

/-- Parse the elements of a non-empty array after the opening bracket
(and any whitespace) have been consumed. -/
def parseItems : Nat → List Char → Option (List JsonVal × List Char)
  | 0, _ => none
  | fuel + 1, cs =>
    match parseVal fuel cs with
    | none => none
    | some (v, r1) =>
      match skipWs r1 with
      | ',' :: r2 => (parseItems fuel (skipWs r2)).map (fun p => (v :: p.1, p.2))
      | ']' :: r2 => some ([v], r2)
      | _ => none

/-- Parse the members of a non-empty object after the opening brace
(and any whitespace) have been consumed. -/
def parseFields : Nat → List Char → Option (List (String × JsonVal) × List Char)
  | 0, _ => none
  | fuel + 1, cs =>
    match cs with
    | '"' :: r0 =>
      match parseStringBody r0 with
      | none => none
      | some (k, r1) =>
        match skipWs r1 with
        | ':' :: r2 =>
          match parseVal fuel (skipWs r2) with
          | none => none
          | some (v, r3) =>
            match skipWs r3 with
            | ',' :: r4 =>
              (parseFields fuel (skipWs r4)).map
                (fun p => ((String.mk k, v) :: p.1, p.2))
            | '\x7d' :: r4 => some ([(String.mk k, v)], r4)
            | _ => none
        | _ => none
    | _ => none

end

/-- Characters that may legitimately follow a printed value inside a
document: nothing, a separator, a closing bracket, or whitespace. -/
def DelimB : List Char → Bool
  | [] => true
  | c :: _ => c = ',' || c = ']' || c = '\x7d' || isWsChar c

/-- The file text a physical save writes for root value `v`:
`JSON.stringify(this.data, null, this.config.space)` with the configured
indentation (`src/index.js` line 213; `space` is `indentation` in the
TypeScript variant). -/
def stringifyData (cfg : Config) (v : JsonVal) : String :=
  String.mk (printVal cfg.indentation 0 v)

/-- `JSON.parse` / `sjson.parse` of a whole document: parse one value
surrounded by optional whitespace, requiring all input consumed. The fuel
`2 * length + 2` exceeds the parser's needs on any input it accepts. -/
def jsonParse (s : String) : Option JsonVal :=
  match parseVal (2 * s.length + 2) (skipWs s.data) with
  | some (v, r) => if skipWs r = [] then some v else none
  | none => none

/-- No string occurs twice in the list. -/
def keysNodupB : List String → Bool
  | [] => true
  | k :: ks => !(ks.contains k) && keysNodupB ks

mutual

/-- Well-formedness of a value tree as a mirror of an actual JavaScript
value: every object's keys are pairwise distinct (JS objects cannot carry
duplicate keys). -/
def wfVal : JsonVal → Bool
  | .arr es => wfList es
  | .obj fs => keysNodupB (fs.map Prod.fst) && wfFields fs
  | _ => true
termination_by v => sizeOf v

/-- Well-formedness of an array's elements. -/
def wfList : List JsonVal → Bool
  | [] => true
  | v :: vs => wfVal v && wfList vs
termination_by vs => sizeOf vs

/-- Well-formedness of an object's field values. -/
def wfFields : List (String × JsonVal) → Bool
  | [] => true
  | (_, v) :: fs => wfVal v && wfFields fs
termination_by fs => sizeOf fs

end

/-- `Object.prototype.hasOwnProperty.call(value, 'prototype')` on a
parsed JSON value: only an object literal can carry an own `prototype`
member (a parsed array's own properties are its indices, and scalars have
no own `prototype`). -/
def hasOwnPrototypeField : JsonVal → Bool
  | .obj gs => (gs.map Prod.fst).contains "prototype"
  | _ => false

mutual

/-- The scan secure-json-parse's `filter` performs when `sjson.parse` is
called with no options, so that both `protoAction` and
`constructorAction` default to `'error'`: the parsed tree is rejected
(the parse throws a `SyntaxError`) when any reachable node carries an own
`__proto__` member, or an own `constructor` member whose value has an own
`prototype` member. A scalar result is returned without scanning
(`typeof obj !== 'object'`). -/
def sjsonForbidden : JsonVal → Bool
  | .arr es => sjsonForbiddenList es
  | .obj fs =>
    (fs.map Prod.fst).contains "__proto__" ||
      fs.any (fun kv => kv.1 == "constructor" && hasOwnPrototypeField kv.2) ||
      sjsonForbiddenFields fs
  | _ => false
termination_by v => sizeOf v

/-- Forbidden-key scan over an array's elements. -/
def sjsonForbiddenList : List JsonVal → Bool
  | [] => false
  | v :: vs => sjsonForbidden v || sjsonForbiddenList vs
termination_by vs => sizeOf vs

/-- Forbidden-key scan over an object's field values. -/
def sjsonForbiddenFields : List (String × JsonVal) → Bool
  | [] => false
  | (_, v) :: fs => sjsonForbidden v || sjsonForbiddenFields fs
termination_by fs => sizeOf fs

end

/-- `sjson.parse(content)` (secure-json-parse, imported at
`src/src/index.ts` line 2 and called with no options): plain JSON parsing
followed by the forbidden-prototype-key scan; a tree carrying such a key
makes the parse throw, modelled as a parse failure. -/
def sjsonParse (s : String) : Option JsonVal :=
  match jsonParse s with
  | some v => if sjsonForbidden v then none else some v
  | none => none

/-- Load-time failure kinds of the store's gateway. -/
inductive LoadError
  | parseError
deriving Repr, DecidableEq

/-- `initializeData` of `src/src/index.ts` (lines 155-176): absent file
yields the empty mapping; an existing file is parsed with `sjson.parse`
(secure-json-parse at its default `protoAction`/`constructorAction` of
`'error'`, so text whose tree carries a forbidden prototype key is
rejected like malformed text); a parse failure is rethrown when
`throwErrors` is set and otherwise swallowed, returning the empty
mapping. The file argument is `none` when no file exists at the path and
`some content` otherwise. -/
def initializeData (cfg : Config) (file : Option String) :
    Except LoadError JsonVal :=
  match file with
  | none => .ok (.obj [])
  | some content =>
    match sjsonParse content with
    | some v => .ok v
    | none =>
      if cfg.throwErrors then .error .parseError else .ok (.obj [])

/-- The load of `src/index.js` line 190:
`fs.existsSync(filename) ? JSON.parse(fs.readFileSync(filename)) : {}` —
no catch anywhere, so a parse failure always propagates out of the
constructor. -/
def loadTargetJs (file : Option String) : Except LoadError JsonVal :=
  match file with
  | none => .ok (.obj [])
  | some content =>
    match jsonParse content with
    | some v => .ok v
    | none => .error .parseError

/-! ## Claim theorems about the scheduler -/

/-- Claim C1 (counterexample). The claim states that a forced save issued
while another save's write is in progress is held back by the in-flight
guard. In the code the `force` check precedes the `isSaving` check
(`src/src/index.ts` lines 441-445, `src/index.js` line 224), so a forced
save dispatched while `isSaving` is set starts the physical write
immediately rather than being rescheduled. -/
theorem forced_save_bypasses_inflight_guard :
    (handleSaveOperation {} ⟨true, false, 0⟩ true).1 = SaveAction.runSave := by
  decide

/-- Claim C1 (amended): non-forced saves are serialized by the in-flight
guard — a non-forced save requested while a write is in flight never
starts a second physical write and is instead rescheduled after
`saveRetryTimeoutMs` — but a forced save bypasses the guard and starts a
write immediately even while another write is in flight. -/
theorem inflight_guard_serializes_unforced_saves (cfg : Config) (st : SchedState)
    (h : st.isSaving = true) :
    (handleSaveOperation cfg st false).1 = SaveAction.retryLater ∧
      (handleSaveOperation cfg st true).1 = SaveAction.runSave := by
  constructor
  · simp [handleSaveOperation, h]
  · simp [handleSaveOperation]

theorem inflight_guard_serializes_unforced_saves_witness :
    (handleSaveOperation {} ⟨true, true, 3⟩ false).1 = SaveAction.retryLater ∧
      (handleSaveOperation {} ⟨true, true, 3⟩ true).1 = SaveAction.runSave :=
  inflight_guard_serializes_unforced_saves {} ⟨true, true, 3⟩ rfl

/-- Claim C2. In the TypeScript implementation the `finally` block runs
`cleanupSaveState` after every physical save, successful or not, so the
scheduler always returns to the idle state; but in the legacy JavaScript
implementation (`src/index.js`) a throwing write skips the cleanup and
leaves `this.saving` set, contradicting the claimed guaranteed cleanup. -/
theorem failed_write_cleanup_divergence :
    (performSaveJs ⟨false, true, 4⟩ false).st =
        ⟨true, true, 4⟩ ∧
      (∀ (cfg : Config) (st : SchedState) (writeOk : Bool),
        (performSaveTs cfg st writeOk).st = idleState) := by
  constructor
  · decide
  · intro cfg st writeOk
    cases writeOk <;> simp [performSaveTs, cleanupSaveState, idleState]

/-- Claim C6. With `autoSave` enabled and a positive coalesce cap, a burst
of `maxAutoSaveTimeouts + 1` back-to-back save requests starting from the
idle state arms/rearms the debounce timer for the first
`maxAutoSaveTimeouts` requests and performs the physical save immediately
on the last one: each request past the first cancels the armed timer and
increments the counter, and the save is forced as soon as the counter
reaches the cap, before any timer fires. -/
theorem burst_flushes_at_coalesce_cap (cfg : Config)
    (h : cfg.autoSave = true) (hmax : 1 ≤ cfg.maxAutoSaveTimeouts) :
    burst cfg idleState (cfg.maxAutoSaveTimeouts + 1) =
      List.replicate cfg.maxAutoSaveTimeouts SaveAction.armTimer ++
        [SaveAction.runSave] := by
  obtain ⟨m, hm⟩ : ∃ m, cfg.maxAutoSaveTimeouts = m + 1 :=
    ⟨cfg.maxAutoSaveTimeouts - 1, by omega⟩
  rw [hm]
  have step := autoSaveStep_idle cfg h
  calc burst cfg idleState (m + 2)
      = SaveAction.armTimer :: burst cfg (armedState 0) (m + 1) := by
        simp [burst, step]
    _ = SaveAction.armTimer ::
          (List.replicate m SaveAction.armTimer ++ [SaveAction.runSave]) := by
        rw [burst_armed_flush cfg h m 0 (by omega)]
    _ = List.replicate (m + 1) SaveAction.armTimer ++ [SaveAction.runSave] := by
        simp [List.replicate_succ]

theorem burst_flushes_at_coalesce_cap_witness :
    burst {} idleState 11 =
      List.replicate 10 SaveAction.armTimer ++ [SaveAction.runSave] :=
  burst_flushes_at_coalesce_cap {} rfl (by decide)

/-- Claim C9. A non-forced `save()` call performs the physical write
synchronously exactly when `autoSave` is disabled or the coalesce cap is
reached (with no write in flight); otherwise — in particular with
`autoSave` on, no write in flight and the cap not reached — it only arms
or rearms the debounce timer, so an immediate write from an explicit call
happens only with the force flag, with `autoSave` off, or at the cap. -/
theorem unforced_save_only_arms_timer (cfg : Config) (st : SchedState)
    (force : Bool) :
    ((handleSaveOperation cfg st force).1 = SaveAction.runSave ↔
      (force = true ∨ (st.isSaving = false ∧ (cfg.autoSave = false ∨
        (st.saveTimeoutArmed = true ∧
          cfg.maxAutoSaveTimeouts ≤ st.saveTimeoutCount + 1))))) ∧
    (force = false → st.isSaving = false → cfg.autoSave = true →
      ¬ (st.saveTimeoutArmed = true ∧
          cfg.maxAutoSaveTimeouts ≤ st.saveTimeoutCount + 1) →
      (handleSaveOperation cfg st false).1 = SaveAction.armTimer) := by
  constructor
  · cases force with
    | true => simp [handleSaveOperation]
    | false =>
      cases hs : st.isSaving with
      | true => simp [handleSaveOperation, hs]
      | false =>
        cases ha : cfg.autoSave with
        | false => simp [handleSaveOperation, hs, ha]
        | true =>
          cases ht : st.saveTimeoutArmed with
          | false => simp [handleSaveOperation, hs, ha, ht]
          | true =>
            by_cases hcap : cfg.maxAutoSaveTimeouts ≤ st.saveTimeoutCount + 1 <;>
              simp [handleSaveOperation, hs, ha, ht, hcap]
  · intro hf hs ha hcap
    subst hf
    cases ht : st.saveTimeoutArmed with
    | false => simp [handleSaveOperation, hs, ha, ht]
    | true =>
      have hc : ¬ cfg.maxAutoSaveTimeouts ≤ st.saveTimeoutCount + 1 := by
        intro hle; exact hcap ⟨ht, hle⟩
      simp [handleSaveOperation, hs, ha, ht, hc]

theorem unforced_save_only_arms_timer_witness :
    (handleSaveOperation {} idleState false).1 = SaveAction.armTimer :=
  (unforced_save_only_arms_timer {} idleState false).2 rfl rfl rfl
    (by decide)

/-! ## Claim theorems about the trap handler -/

/-- Claim C5. A trap requests a save of the scheduler exactly when its
operation is one of the six mutating kinds and `autoSave` is enabled;
every trap — the pure reads included — notifies the configured `onUpdate`
hook with its method name. -/
theorem trap_saves_iff_mutating (cfg : Config) (op : TrapOp) :
    (Event.saveRequested ∈ runTrap cfg op ↔
      (isMutatingOp op = true ∧ cfg.autoSave = true)) ∧
    (cfg.hasOnUpdate = true → Event.update (opName op) ∈ runTrap cfg op) := by
  by_cases ha : cfg.autoSave <;> by_cases hu : cfg.hasOnUpdate <;>
    cases op <;>
      simp [runTrap, notifyUpdate, autoSaveRequest, isMutatingOp, opName, ha, hu]

theorem trap_saves_iff_mutating_witness :
    (Event.saveRequested ∈ runTrap { hasOnUpdate := true } TrapOp.set ∧
      Event.update "set" ∈ runTrap { hasOnUpdate := true } TrapOp.set) ∧
      Event.saveRequested ∉ runTrap { hasOnUpdate := true } TrapOp.get :=
  ⟨⟨(trap_saves_iff_mutating { hasOnUpdate := true } TrapOp.set).1.mpr
      ⟨rfl, rfl⟩,
    (trap_saves_iff_mutating { hasOnUpdate := true } TrapOp.set).2 rfl⟩,
    fun hmem =>
      absurd
        ((trap_saves_iff_mutating { hasOnUpdate := true } TrapOp.get).1.mp
          hmem).1
        (by decide)⟩

/-- Claim C8. With `noProxy` (direct mode) enabled, `this.data` is the raw
unwrapped target: any sequence of operations through it produces no
`onUpdate` invocation and no save request, and only the explicit save
path performs a physical write. -/
theorem direct_mode_bypasses_interception (cfg : Config)
    (h : cfg.noProxy = true) :
    dataHandleOf cfg = DataHandle.raw ∧
    (∀ ops : List TrapOp, mutationsEvents cfg (dataHandleOf cfg) ops = []) ∧
    (∀ st : SchedState, (performSaveTs cfg st true).wroteFile = true) := by
  have hraw : dataHandleOf cfg = DataHandle.raw := by simp [dataHandleOf, h]
  refine ⟨hraw, ?_, ?_⟩
  · intro ops
    rw [hraw]
    induction ops with
    | nil => rfl
    | cons o os ih =>
      simp [mutationsEvents, mutationEvents]
  · intro st
    simp [performSaveTs]

theorem direct_mode_bypasses_interception_witness :
    mutationsEvents { noProxy := true }
        (dataHandleOf { noProxy := true })
        [TrapOp.set, TrapOp.set, TrapOp.deleteProperty, TrapOp.get] = [] ∧
      (performSaveTs { noProxy := true } idleState true).wroteFile = true :=
  ⟨(direct_mode_bypasses_interception { noProxy := true } rfl).2.1
      [TrapOp.set, TrapOp.set, TrapOp.deleteProperty, TrapOp.get],
    (direct_mode_bypasses_interception { noProxy := true } rfl).2.2 idleState⟩

/-! ## Claim theorems about serialization of cyclic values -/

/-- Claim C4 (counterexample). The claim states that encoding a value
with a cyclic reference fails rather than producing output text and never
substitutes the cyclic part. The serializer actually used by
`src/src/index.ts` (`json-stringify-safe`) succeeds on the self-referential
object `a.self = a`, producing output text with the placeholder string
`"[Circular ~]"` substituted for the cyclic reference. -/
theorem safe_stringify_substitutes_circular :
    stringifySafeTop cyclicHeap 2 (HVal.href 0) =
      some ("\x7b\n  \"self\": \"[Circular ~]\"\n\x7d".data) := by
  rfl

/-- Claim C4 (amended): encoding a value with a cyclic reference does not
fail in the current implementation — whenever the serializer meets a
reference that is already on its stack it substitutes the quoted circular
placeholder and succeeds; only the legacy implementation's plain
`JSON.stringify` (`src/index.js` line 213) raises a `TypeError` on the
cycle instead of producing output. -/
theorem safe_stringify_cycle_amended :
    (∀ (h : Heap) (g fuel : Nat) (stack : List Nat) (keys : List String)
        (depth id : Nat), stack.contains id = true →
      stringifySafeVal h g fuel stack keys depth (HVal.href id) =
        some (jsonQuote (circularText stack keys id))) ∧
    jsStringifyHeapTop cyclicHeap 2 (HVal.href 0) =
      Except.error circularErrorMsg := by
  constructor
  · intro h g fuel stack keys depth id hid
    have hmem : id ∈ stack := by simpa using hid
    cases fuel <;> simp [stringifySafeVal, hmem]
  · rfl

theorem safe_stringify_cycle_amended_witness :
    stringifySafeVal cyclicHeap 2 5 [0] ["self"] 1 (HVal.href 0) =
      some (jsonQuote (circularText [0] ["self"] 0)) :=
  safe_stringify_cycle_amended.1 cyclicHeap 2 5 [0] ["self"] 1 0 (by decide)

/-! ## Claim theorems about the serializer's walk over the proxy -/

theorem countGetUpdates_append (xs ys : List Event) :
    countGetUpdates (xs ++ ys) = countGetUpdates xs + countGetUpdates ys := by
  simp [countGetUpdates, List.countP_append]

theorem countGet_notify_get (cfg : Config) (hu : cfg.hasOnUpdate = true) :
    countGetUpdates (notifyUpdate cfg "get") = 1 := by
  simp [notifyUpdate, countGetUpdates, hu]

theorem countGet_notify_ownKeys (cfg : Config) :
    countGetUpdates (notifyUpdate cfg "ownKeys") = 0 := by
  cases h : cfg.hasOnUpdate <;> simp [notifyUpdate, countGetUpdates, h]

theorem countGet_gopd (cfg : Config) :
    ∀ fs : List (String × JsonVal),
      countGetUpdates (fieldsGopdEvents cfg fs) = 0
  | [] => by simp [fieldsGopdEvents, countGetUpdates]
  | kv :: fs => by
    have h := countGet_gopd cfg fs
    cases hc : cfg.hasOnUpdate <;>
      simp_all [fieldsGopdEvents, countGetUpdates, notifyUpdate,
        List.countP_append, List.countP_cons]

mutual

theorem countGet_serialize (cfg : Config) (hu : cfg.hasOnUpdate = true) :
    ∀ v : JsonVal, countGetUpdates (serializeValEvents cfg v) =
      totalProps v + totalContainers v + totalArrays v
  | .null => by
    simp [serializeValEvents, totalProps, totalContainers, totalArrays,
      countGetUpdates]
  | .bool b => by
    simp [serializeValEvents, totalProps, totalContainers, totalArrays,
      countGetUpdates]
  | .num n => by
    simp [serializeValEvents, totalProps, totalContainers, totalArrays,
      countGetUpdates]
  | .str s => by
    simp [serializeValEvents, totalProps, totalContainers, totalArrays,
      countGetUpdates]
  | .arr es => by
    have h := countGet_serializeList cfg hu es
    simp only [serializeValEvents, countGetUpdates_append,
      countGet_notify_get cfg hu, totalProps, totalContainers, totalArrays]
    omega
  | .obj fs => by
    have h := countGet_serializeFields cfg hu fs
    have hg := countGet_gopd cfg fs
    simp only [serializeValEvents, countGetUpdates_append,
      countGet_notify_get cfg hu, countGet_notify_ownKeys,
      totalProps, totalContainers, totalArrays]
    omega

theorem countGet_serializeList (cfg : Config) (hu : cfg.hasOnUpdate = true) :
    ∀ es : List JsonVal, countGetUpdates (serializeListEvents cfg es) =
      totalPropsList es + totalContainersList es + totalArraysList es
  | [] => by
    simp [serializeListEvents, totalPropsList, totalContainersList,
      totalArraysList, countGetUpdates]
  | v :: vs => by
    have h1 := countGet_serialize cfg hu v
    have h2 := countGet_serializeList cfg hu vs
    simp only [serializeListEvents, countGetUpdates_append,
      countGet_notify_get cfg hu, totalPropsList, totalContainersList,
      totalArraysList]
    omega

theorem countGet_serializeFields (cfg : Config) (hu : cfg.hasOnUpdate = true) :
    ∀ fs : List (String × JsonVal),
      countGetUpdates (serializeFieldsEvents cfg fs) =
        totalPropsFields fs + totalContainersFields fs + totalArraysFields fs
  | [] => by
    simp [serializeFieldsEvents, totalPropsFields, totalContainersFields,
      totalArraysFields, countGetUpdates]
  | (k, v) :: fs => by
    have h1 := countGet_serialize cfg hu v
    have h2 := countGet_serializeFields cfg hu fs
    simp only [serializeFieldsEvents, countGetUpdates_append,
      countGet_notify_get cfg hu, totalPropsFields, totalContainersFields,
      totalArraysFields]
    omega

end

theorem natDigitsF_stable :
    ∀ f f' n, n < f → n < f' → natDigitsF f n = natDigitsF f' n := by
  intro f
  induction f with
  | zero => intro f' n h; omega
  | succ g ih =>
    intro f' n hf hf'
    cases f' with
    | zero => omega
    | succ g' =>
      by_cases h10 : n < 10
      · simp [natDigitsF, h10]
      · have hn : 0 < n := by omega
        have hdiv : n / 10 < n := Nat.div_lt_self hn (by omega)
        simp only [natDigitsF, h10, if_false]
        rw [ih g' (n / 10) (by omega) (by omega)]

theorem natDigits_unfold (n : Nat) :
    natDigits n =
      if n < 10 then [Nat.digitChar n]
      else natDigits (n / 10) ++ [Nat.digitChar (n % 10)] := by
  by_cases h10 : n < 10
  · simp [natDigits, natDigitsF, h10]
  · have hn : 0 < n := by omega
    have hdiv : n / 10 < n := Nat.div_lt_self hn (by omega)
    have h1 : natDigits n = natDigitsF n (n / 10) ++ [Nat.digitChar (n % 10)] := by
      simp [natDigits, natDigitsF, h10]
    rw [h1, natDigitsF_stable n (n / 10 + 1) (n / 10) (by omega) (by omega)]
    simp only [h10, if_false]
    rfl

theorem digitChar_isDigit (k : Nat) (h : k < 10) :
    (Nat.digitChar k).isDigit = true := by
  interval_cases k <;> decide

theorem digitChar_val (k : Nat) (h : k < 10) :
    (Nat.digitChar k).toNat - 48 = k := by
  interval_cases k <;> decide

theorem natDigits_ne_nil (n : Nat) : natDigits n ≠ [] := by
  rw [natDigits_unfold]
  by_cases h10 : n < 10 <;> simp [h10]

theorem natDigits_all_digits (n : Nat) :
    ∀ c ∈ natDigits n, c.isDigit = true := by
  induction n using Nat.strong_induction_on with
  | _ n ih =>
    rw [natDigits_unfold]
    by_cases h10 : n < 10
    · simp only [h10, if_true]
      intro c hc
      simp only [List.mem_singleton] at hc
      subst hc
      exact digitChar_isDigit n h10
    · have hn : 0 < n := by omega
      have hdiv : n / 10 < n := Nat.div_lt_self hn (by omega)
      simp only [h10, if_false]
      intro c hc
      rcases List.mem_append.mp hc with h | h
      · exact ih (n / 10) hdiv c h
      · simp only [List.mem_singleton] at h
        subst h
        exact digitChar_isDigit (n % 10) (Nat.mod_lt n (by omega))

theorem digitsVal_natDigits (n : Nat) : digitsVal (natDigits n) = n := by
  induction n using Nat.strong_induction_on with
  | _ n ih =>
    rw [natDigits_unfold]
    by_cases h10 : n < 10
    · simp [h10, digitsVal, digitChar_val n h10]
    · have hn : 0 < n := by omega
      have hdiv : n / 10 < n := Nat.div_lt_self hn (by omega)
      simp only [h10, if_false, digitsVal, List.foldl_append, List.foldl_cons,
        List.foldl_nil]
      have hv := digitChar_val (n % 10) (Nat.mod_lt n (by omega))
      have hih : digitsVal (natDigits (n / 10)) = n / 10 := ih (n / 10) hdiv
      simp only [digitsVal] at hih
      rw [hih, show Char.toNat '0' = 48 from rfl, hv]
      omega

/-! ## Codec correctness: whitespace and delimiters -/

theorem skipWs_append_ws (p cs : List Char)
    (hp : ∀ c ∈ p, isWsChar c = true) : skipWs (p ++ cs) = skipWs cs := by
  induction p with
  | nil => rfl
  | cons c t ih =>
    have hc : isWsChar c = true := hp c (by simp)
    simp only [List.cons_append, skipWs, List.dropWhile_cons, hc, if_true]
    exact ih (fun x hx => hp x (by simp [hx]))

theorem skipWs_cons_notws (c : Char) (cs : List Char)
    (h : isWsChar c = false) : skipWs (c :: cs) = c :: cs := by
  simp [skipWs, List.dropWhile_cons, h]

theorem openPad_ws (gap depth : Nat) :
    ∀ c ∈ openPad gap depth, isWsChar c = true := by
  intro c hc
  by_cases hg : gap = 0
  · simp [openPad, hg] at hc
  · simp only [openPad, hg, if_false, List.mem_cons, List.mem_replicate] at hc
    rcases hc with h | h
    · subst h; decide
    · rw [h.2]; decide

theorem closePad_ws (gap depth : Nat) :
    ∀ c ∈ closePad gap depth, isWsChar c = true := by
  intro c hc
  by_cases hg : gap = 0
  · simp [closePad, hg] at hc
  · simp only [closePad, hg, if_false, List.mem_cons, List.mem_replicate] at hc
    rcases hc with h | h
    · subst h; decide
    · rw [h.2]; decide

theorem colonPad_ws (gap : Nat) : ∀ c ∈ colonPad gap, isWsChar c = true := by
  intro c hc
  by_cases hg : gap = 0
  · simp [colonPad, hg] at hc
  · simp only [colonPad, hg, if_false, List.mem_singleton] at hc
    rw [hc]; decide

theorem skipWs_openPad (gap depth : Nat) (cs : List Char) :
    skipWs (openPad gap depth ++ cs) = skipWs cs :=
  skipWs_append_ws _ _ (openPad_ws gap depth)

theorem skipWs_closePad (gap depth : Nat) (cs : List Char) :
    skipWs (closePad gap depth ++ cs) = skipWs cs :=
  skipWs_append_ws _ _ (closePad_ws gap depth)

theorem skipWs_colonPad (gap : Nat) (cs : List Char) :
    skipWs (colonPad gap ++ cs) = skipWs cs :=
  skipWs_append_ws _ _ (colonPad_ws gap)

theorem delim_head_not_digit (c : Char) (t : List Char)
    (h : DelimB (c :: t) = true) : c.isDigit = false := by
  have h' : c = ',' ∨ c = ']' ∨ c = '\x7d' ∨ c = ' ' ∨ c = '\n' ∨
      c = '\t' ∨ c = '\r' := by
    simp only [DelimB, isWsChar, Bool.or_eq_true, decide_eq_true_eq] at h
    tauto
  rcases h' with h | h | h | h | h | h | h <;> (subst h; decide)

theorem takeWhile_digits_append (ds rest : List Char)
    (h1 : ∀ c ∈ ds, c.isDigit = true) (h2 : DelimB rest = true) :
    (ds ++ rest).takeWhile Char.isDigit = ds ∧
      (ds ++ rest).dropWhile Char.isDigit = rest := by
  induction ds with
  | nil =>
    cases rest with
    | nil => simp
    | cons c t =>
      have := delim_head_not_digit c t h2
      simp [List.takeWhile_cons, List.dropWhile_cons, this]
  | cons d ds ih =>
    have hd : d.isDigit = true := h1 d (by simp)
    have ihs := ih (fun x hx => h1 x (by simp [hx]))
    simp [List.takeWhile_cons, List.dropWhile_cons, hd, ihs.1, ihs.2]

/-! ## Codec correctness: strings and escapes -/

theorem hexVal_digitChar (k : Nat) (h : k < 16) :
    hexVal (Nat.digitChar k) = some k := by
  interval_cases k <;> decide

theorem parseStringBody_escape :
    ∀ s tail : List Char,
      parseStringBody (escapeString s ++ '"' :: tail) = some (s, tail) := by
  intro s
  induction s with
  | nil =>
    intro tail
    rw [show escapeString [] ++ '"' :: tail = '"' :: tail from rfl]
    rw [parseStringBody.eq_def]
    simp
  | cons c cs ih =>
    intro tail
    show parseStringBody ((escapeChar c ++ escapeString cs) ++ '"' :: tail) = _
    rw [List.append_assoc]
    by_cases h1 : c = '"'
    · subst h1
      rw [show escapeChar '"' = ['\\', '"'] from rfl]
      rw [parseStringBody.eq_def]
      simp [unescapeChar, ih tail]
    · by_cases h2 : c = '\\'
      · subst h2
        rw [show escapeChar '\\' = ['\\', '\\'] from rfl]
        rw [parseStringBody.eq_def]
        simp [unescapeChar, ih tail]
      · by_cases h3 : c = '\x08'
        · subst h3
          rw [show escapeChar '\x08' = ['\\', 'b'] from rfl]
          rw [parseStringBody.eq_def]
          simp [unescapeChar, ih tail]
        · by_cases h4 : c = '\x0c'
          · subst h4
            rw [show escapeChar '\x0c' = ['\\', 'f'] from rfl]
            rw [parseStringBody.eq_def]
            simp [unescapeChar, ih tail]
          · by_cases h5 : c = '\n'
            · subst h5
              rw [show escapeChar '\n' = ['\\', 'n'] from rfl]
              rw [parseStringBody.eq_def]
              simp [unescapeChar, ih tail]
            · by_cases h6 : c = '\r'
              · subst h6
                rw [show escapeChar '\r' = ['\\', 'r'] from rfl]
                rw [parseStringBody.eq_def]
                simp [unescapeChar, ih tail]
              · by_cases h7 : c = '\t'
                · subst h7
                  rw [show escapeChar '\t' = ['\\', 't'] from rfl]
                  rw [parseStringBody.eq_def]
                  simp [unescapeChar, ih tail]
                · by_cases h8 : c.toNat < 32
                  · have hhi : c.toNat / 16 < 16 := by omega
                    have hlo : c.toNat % 16 < 16 := Nat.mod_lt _ (by omega)
                    rw [show escapeChar c =
                        ['\\', 'u', '0', '0', Nat.digitChar (c.toNat / 16),
                          Nat.digitChar (c.toNat % 16)] from by
                      simp [escapeChar, h1, h2, h3, h4, h5, h6, h7, h8]]
                    rw [parseStringBody.eq_def]
                    simp only [List.cons_append, List.nil_append]
                    simp only [reduceIte, hexVal_digitChar _ hhi,
                      hexVal_digitChar _ hlo,
                      show hexVal '0' = some 0 from rfl]
                    have hvc : ((0 * 16 + 0) * 16 + c.toNat / 16) * 16 +
                        c.toNat % 16 = c.toNat := by omega
                    rw [hvc, Char.ofNat_toNat, ih tail]
                    rfl
                  · rw [show escapeChar c = [c] from by
                      simp [escapeChar, h1, h2, h3, h4, h5, h6, h7, h8]]
                    rw [parseStringBody.eq_def]
                    simp only [List.cons_append, List.nil_append]
                    simp [h1, h2, ih tail]

/-! ## Codec correctness: structural facts about the printer -/

theorem string_mk_data (s : String) : String.mk s.data = s := rfl

theorem jfuel_pos (v : JsonVal) : 1 ≤ jfuel v := by
  cases v <;> simp [jfuel]

theorem listFuel_pos (vs : List JsonVal) : 1 ≤ listFuel vs := by
  cases vs with
  | nil => simp [listFuel]
  | cons v vs =>
    have := jfuel_pos v
    simp [listFuel]
    omega

theorem fieldsFuel_pos (fs : List (String × JsonVal)) : 1 ≤ fieldsFuel fs := by
  cases fs with
  | nil => simp [fieldsFuel]
  | cons kv fs =>
    obtain ⟨k, v⟩ := kv
    have := jfuel_pos v
    simp [fieldsFuel]
    omega

theorem digit_not_special (c : Char) (h : c.isDigit = true) :
    isWsChar c = false ∧ c ≠ ']' ∧ c ≠ '\x7d' := by
  refine ⟨?_, ?_, ?_⟩
  · cases hw : isWsChar c with
    | false => rfl
    | true =>
      have h' : c = ' ' ∨ c = '\n' ∨ c = '\t' ∨ c = '\r' := by
        simp only [isWsChar, Bool.or_eq_true, decide_eq_true_eq] at hw
        tauto
      rcases h' with h' | h' | h' | h' <;>
        (subst h'; exact absurd h (by decide))
  · intro he; subst he; exact absurd h (by decide)
  · intro he; subst he; exact absurd h (by decide)

theorem printVal_head (gap depth : Nat) (v : JsonVal) :
    ∃ c t, printVal gap depth v = c :: t ∧ isWsChar c = false ∧
      c ≠ ']' ∧ c ≠ '\x7d' := by
  cases v with
  | null =>
    exact ⟨'n', ['u', 'l', 'l'], by simp [printVal, nullChars], by decide,
      by decide, by decide⟩
  | bool b =>
    cases b with
    | true =>
      exact ⟨'t', ['r', 'u', 'e'], by simp [printVal, trueChars], by decide,
        by decide, by decide⟩
    | false =>
      exact ⟨'f', ['a', 'l', 's', 'e'], by simp [printVal, falseChars],
        by decide, by decide, by decide⟩
  | num n =>
    by_cases hneg : n < 0
    · exact ⟨'-', natDigits (-n).toNat, by simp [printVal, printInt, hneg],
        by decide, by decide, by decide⟩
    · cases hnat : natDigits n.toNat with
      | nil => exact absurd hnat (natDigits_ne_nil _)
      | cons d ds =>
        have hd : d.isDigit = true :=
          natDigits_all_digits n.toNat d (by rw [hnat]; simp)
        obtain ⟨hws, hbr, hbc⟩ := digit_not_special d hd
        exact ⟨d, ds, by simp [printVal, printInt, hneg, hnat], hws, hbr, hbc⟩
  | str s =>
    exact ⟨'"', escapeString s.data ++ ['"'], by simp [printVal, jsonQuote],
      by decide, by decide, by decide⟩
  | arr es =>
    cases es with
    | nil =>
      exact ⟨'[', [']'], by simp [printVal], by decide, by decide, by decide⟩
    | cons v vs =>
      exact ⟨'[', openPad gap depth ++ (printVal gap (depth + 1) v ++
          printTailA gap depth vs),
        by simp [printVal], by decide, by decide, by decide⟩
  | obj fs =>
    cases fs with
    | nil =>
      exact ⟨'\x7b', ['\x7d'], by simp [printVal], by decide, by decide,
        by decide⟩
    | cons kv fs =>
      obtain ⟨k, v⟩ := kv
      exact ⟨'\x7b', openPad gap depth ++ (printField gap depth k v ++
          printTailO gap depth fs),
        by simp [printVal], by decide, by decide, by decide⟩

theorem skipWs_pad_print (pad : List Char) (hp : ∀ c ∈ pad, isWsChar c = true)
    (gap depth : Nat) (v : JsonVal) (tail : List Char) :
    skipWs (pad ++ (printVal gap depth v ++ tail)) =
      printVal gap depth v ++ tail := by
  rw [skipWs_append_ws pad _ hp]
  obtain ⟨c, t, hc, hws, _, _⟩ := printVal_head gap depth v
  rw [hc, List.cons_append, skipWs_cons_notws _ _ hws, ← List.cons_append, ← hc]

theorem delim_tailA (gap depth : Nat) (vs : List JsonVal) (rest : List Char) :
    DelimB (printTailA gap depth vs ++ rest) = true := by
  cases vs with
  | nil =>
    by_cases hg : gap = 0
    · simp [printTailA, closePad, hg, DelimB]
    · simp [printTailA, closePad, hg, DelimB, isWsChar]
  | cons v vs => simp [printTailA, DelimB]

theorem delim_tailO (gap depth : Nat) (fs : List (String × JsonVal))
    (rest : List Char) :
    DelimB (printTailO gap depth fs ++ rest) = true := by
  cases fs with
  | nil =>
    by_cases hg : gap = 0
    · simp [printTailO, closePad, hg, DelimB]
    · simp [printTailO, closePad, hg, DelimB, isWsChar]
  | cons kv fs =>
    obtain ⟨k, v⟩ := kv
    simp [printTailO, DelimB]

theorem parseVal_digit (f : Nat) (c : Char) (hc : c.isDigit = true)
    (rest : List Char) :
    parseVal (f + 1) (c :: rest) =
      some (JsonVal.num (digitsVal (c :: rest.takeWhile Char.isDigit) : Int),
        rest.dropWhile Char.isDigit) := by
  have h1 : ¬ c = 'n' := fun h => by subst h; exact absurd hc (by decide)
  have h2 : ¬ c = 't' := fun h => by subst h; exact absurd hc (by decide)
  have h3 : ¬ c = 'f' := fun h => by subst h; exact absurd hc (by decide)
  have h4 : ¬ c = '"' := fun h => by subst h; exact absurd hc (by decide)
  have h5 : ¬ c = '[' := fun h => by subst h; exact absurd hc (by decide)
  have h6 : ¬ c = '\x7b' := fun h => by subst h; exact absurd hc (by decide)
  have h7 : ¬ c = '-' := fun h => by subst h; exact absurd hc (by decide)
  rw [parseVal.eq_def]
  simp [h1, h2, h3, h4, h5, h6, h7, hc]


set_option maxHeartbeats 1000000

theorem parse_print (fuel : Nat) :
    (∀ (v : JsonVal) (gap depth : Nat) (rest : List Char),
       jfuel v ≤ fuel → DelimB rest = true →
       parseVal fuel (printVal gap depth v ++ rest) = some (v, rest)) ∧
    (∀ (v : JsonVal) (vs : List JsonVal) (gap depth : Nat) (rest : List Char),
       1 + jfuel v + listFuel vs ≤ fuel → DelimB rest = true →
       parseItems fuel
         (printVal gap (depth + 1) v ++ (printTailA gap depth vs ++ rest)) =
         some (v :: vs, rest)) ∧
    (∀ (k : String) (v : JsonVal) (fs : List (String × JsonVal))
       (gap depth : Nat) (rest : List Char),
       1 + jfuel v + fieldsFuel fs ≤ fuel → DelimB rest = true →
       parseFields fuel
         (printField gap depth k v ++ (printTailO gap depth fs ++ rest)) =
         some ((k, v) :: fs, rest)) := by
  induction fuel with
  | zero =>
    refine ⟨?_, ?_, ?_⟩
    · intro v gap depth rest hfu _
      have := jfuel_pos v
      omega
    · intro v vs gap depth rest hfu _
      omega
    · intro k v fs gap depth rest hfu _
      omega
  | succ f ih =>
    obtain ⟨ihP, ihQ, ihR⟩ := ih
    refine ⟨?_, ?_, ?_⟩
    · intro v gap depth rest hfu hrest
      cases v with
      | null =>
        rw [show printVal gap depth JsonVal.null ++ rest =
            'n' :: 'u' :: 'l' :: 'l' :: rest from by simp [printVal, nullChars]]
        rw [parseVal.eq_def]
        simp
      | bool b =>
        cases b with
        | true =>
          rw [show printVal gap depth (JsonVal.bool true) ++ rest =
              't' :: 'r' :: 'u' :: 'e' :: rest from by
            simp [printVal, trueChars]]
          rw [parseVal.eq_def]
          simp
        | false =>
          rw [show printVal gap depth (JsonVal.bool false) ++ rest =
              'f' :: 'a' :: 'l' :: 's' :: 'e' :: rest from by
            simp [printVal, falseChars]]
          rw [parseVal.eq_def]
          simp
      | num n =>
        by_cases hneg : n < 0
        · cases hnat : natDigits (-n).toNat with
          | nil => exact absurd hnat (natDigits_ne_nil _)
          | cons d ds =>
            rw [show printVal gap depth (JsonVal.num n) ++ rest =
                '-' :: (d :: (ds ++ rest)) from by
              simp [printVal, printInt, hneg, hnat]]
            rw [parseVal.eq_def]
            have hds : ∀ c ∈ d :: ds, c.isDigit = true := by
              rw [← hnat]; exact natDigits_all_digits _
            have htk := takeWhile_digits_append (d :: ds) rest hds hrest
            simp only [List.cons_append] at htk
            have hdv : digitsVal (d :: ds) = (-n).toNat := by
              rw [← hnat]; exact digitsVal_natDigits _
            simp [htk.1, htk.2, hdv]
            omega
        · cases hnat : natDigits n.toNat with
          | nil => exact absurd hnat (natDigits_ne_nil _)
          | cons d ds =>
            rw [show printVal gap depth (JsonVal.num n) ++ rest =
                d :: (ds ++ rest) from by
              simp [printVal, printInt, hneg, hnat]]
            have hd : d.isDigit = true :=
              natDigits_all_digits n.toNat d (by rw [hnat]; simp)
            rw [parseVal_digit f d hd (ds ++ rest)]
            have hds : ∀ c ∈ ds, c.isDigit = true := fun c hc =>
              natDigits_all_digits n.toNat c (by rw [hnat]; simp [hc])
            have htk := takeWhile_digits_append ds rest hds hrest
            rw [htk.1, htk.2]
            have hdv : digitsVal (d :: ds) = n.toNat := by
              rw [← hnat]; exact digitsVal_natDigits _
            rw [hdv]
            have hx : ((n.toNat : Nat) : Int) = n := by omega
            rw [hx]
      | str s =>
        rw [show printVal gap depth (JsonVal.str s) ++ rest =
            '"' :: (escapeString s.data ++ '"' :: rest) from by
          simp [printVal, jsonQuote]]
        rw [parseVal.eq_def]
        simp [parseStringBody_escape s.data rest, string_mk_data]
      | arr es =>
        cases es with
        | nil =>
          rw [show printVal gap depth (JsonVal.arr []) ++ rest =
              '[' :: ']' :: rest from by simp [printVal]]
          rw [parseVal.eq_def]
          have hsk : skipWs (']' :: rest) = ']' :: rest :=
            skipWs_cons_notws _ _ (by decide)
          simp [hsk]
        | cons v vs =>
          rw [show printVal gap depth (JsonVal.arr (v :: vs)) ++ rest =
              '[' :: (openPad gap depth ++ (printVal gap (depth + 1) v ++
                (printTailA gap depth vs ++ rest))) from by
            simp [printVal]]
          rw [parseVal.eq_def]
          have hsk : skipWs (openPad gap depth ++ (printVal gap (depth + 1) v ++
              (printTailA gap depth vs ++ rest))) =
              printVal gap (depth + 1) v ++ (printTailA gap depth vs ++ rest) :=
            skipWs_pad_print _ (openPad_ws gap depth) _ _ _ _
          obtain ⟨c0, t0, hc0, hws0, hbr0, hbc0⟩ :=
            printVal_head gap (depth + 1) v
          have hj1 : jfuel (JsonVal.arr (v :: vs)) = 1 + listFuel (v :: vs) := by
            simp [jfuel]
          have hj2 : listFuel (v :: vs) = 1 + jfuel v + listFuel vs := by
            simp [listFuel]
          have hQ := ihQ v vs gap depth rest (by omega) hrest
          rw [hc0] at hsk hQ
          simp only [List.cons_append] at hsk hQ
          simp [hc0, List.cons_append, hsk, hbr0, hQ]
      | obj fs =>
        cases fs with
        | nil =>
          rw [show printVal gap depth (JsonVal.obj []) ++ rest =
              '\x7b' :: '\x7d' :: rest from by simp [printVal]]
          rw [parseVal.eq_def]
          have hsk : skipWs ('\x7d' :: rest) = '\x7d' :: rest :=
            skipWs_cons_notws _ _ (by decide)
          simp [hsk]
        | cons kv fs =>
          obtain ⟨k, v⟩ := kv
          rw [show printVal gap depth (JsonVal.obj ((k, v) :: fs)) ++ rest =
              '\x7b' :: (openPad gap depth ++ (printField gap depth k v ++
                (printTailO gap depth fs ++ rest))) from by
            simp [printVal]]
          rw [parseVal.eq_def]
          have hfieldhead : printField gap depth k v ++
              (printTailO gap depth fs ++ rest) =
              '"' :: (escapeString k.data ++
                ('"' :: (':' :: (colonPad gap ++
                  (printVal gap (depth + 1) v ++
                    (printTailO gap depth fs ++ rest)))))) := by
            simp [printField, jsonQuote]
          have hsk0 : skipWs (openPad gap depth ++
              (printField gap depth k v ++
                (printTailO gap depth fs ++ rest))) =
              printField gap depth k v ++
                (printTailO gap depth fs ++ rest) := by
            rw [skipWs_append_ws _ _ (openPad_ws gap depth)]
            rw [hfieldhead]
            exact skipWs_cons_notws _ _ (by decide)
          have hj1 : jfuel (JsonVal.obj ((k, v) :: fs)) =
              1 + fieldsFuel ((k, v) :: fs) := by
            simp [jfuel]
          have hj2 : fieldsFuel ((k, v) :: fs) =
              1 + jfuel v + fieldsFuel fs := by
            simp [fieldsFuel]
          have hR := ihR k v fs gap depth rest (by omega) hrest
          rw [hfieldhead] at hsk0 hR
          simp [hfieldhead]
          rw [hsk0]
          simp [hR]
    · intro v vs gap depth rest hfu hrest
      rw [parseItems.eq_def]
      have hP := ihP v gap (depth + 1) (printTailA gap depth vs ++ rest)
        (by omega) (delim_tailA gap depth vs rest)
      simp only [hP]
      cases vs with
      | nil =>
        have hsk : skipWs (printTailA gap depth [] ++ rest) = ']' :: rest := by
          rw [show printTailA gap depth [] ++ rest =
              closePad gap depth ++ (']' :: rest) from by
            simp [printTailA]]
          rw [skipWs_closePad]
          exact skipWs_cons_notws _ _ (by decide)
        simp [hsk]
      | cons v2 vs2 =>
        have hsk : skipWs (printTailA gap depth (v2 :: vs2) ++ rest) =
            ',' :: (openPad gap depth ++ (printVal gap (depth + 1) v2 ++
              (printTailA gap depth vs2 ++ rest))) := by
          rw [show printTailA gap depth (v2 :: vs2) ++ rest =
              ',' :: (openPad gap depth ++ (printVal gap (depth + 1) v2 ++
                (printTailA gap depth vs2 ++ rest))) from by
            simp [printTailA]]
          exact skipWs_cons_notws _ _ (by decide)
        simp only [hsk]
        have hsk2 : skipWs (openPad gap depth ++
            (printVal gap (depth + 1) v2 ++
              (printTailA gap depth vs2 ++ rest))) =
            printVal gap (depth + 1) v2 ++
              (printTailA gap depth vs2 ++ rest) :=
          skipWs_pad_print _ (openPad_ws gap depth) _ _ _ _
        have hlf : listFuel (v2 :: vs2) = 1 + jfuel v2 + listFuel vs2 := by
          simp [listFuel]
        have hp := jfuel_pos v
        have hQ := ihQ v2 vs2 gap depth rest (by omega) hrest
        simp [hsk2, hQ]
    · intro k v fs gap depth rest hfu hrest
      rw [parseFields.eq_def]
      have hshape : printField gap depth k v ++
          (printTailO gap depth fs ++ rest) =
          '"' :: (escapeString k.data ++ '"' ::
            (':' :: (colonPad gap ++ (printVal gap (depth + 1) v ++
              (printTailO gap depth fs ++ rest))))) := by
        simp [printField, jsonQuote]
      rw [hshape]
      simp only [parseStringBody_escape]
      have hsk1 : skipWs (':' :: (colonPad gap ++
          (printVal gap (depth + 1) v ++
            (printTailO gap depth fs ++ rest)))) =
          ':' :: (colonPad gap ++ (printVal gap (depth + 1) v ++
            (printTailO gap depth fs ++ rest))) :=
        skipWs_cons_notws _ _ (by decide)
      simp only [hsk1]
      have hsk2 : skipWs (colonPad gap ++ (printVal gap (depth + 1) v ++
          (printTailO gap depth fs ++ rest))) =
          printVal gap (depth + 1) v ++ (printTailO gap depth fs ++ rest) :=
        skipWs_pad_print _ (colonPad_ws gap) _ _ _ _
      have hP := ihP v gap (depth + 1) (printTailO gap depth fs ++ rest)
        (by omega) (delim_tailO gap depth fs rest)
      simp only [hsk2, hP]
      cases fs with
      | nil =>
        have hsk3 : skipWs (printTailO gap depth [] ++ rest) =
            '\x7d' :: rest := by
          rw [show printTailO gap depth [] ++ rest =
              closePad gap depth ++ ('\x7d' :: rest) from by
            simp [printTailO]]
          rw [skipWs_closePad]
          exact skipWs_cons_notws _ _ (by decide)
        simp [hsk3, string_mk_data]
      | cons kv2 fs2 =>
        obtain ⟨k2, v2⟩ := kv2
        have hsk3 : skipWs (printTailO gap depth ((k2, v2) :: fs2) ++ rest) =
            ',' :: (openPad gap depth ++ (printField gap depth k2 v2 ++
              (printTailO gap depth fs2 ++ rest))) := by
          rw [show printTailO gap depth ((k2, v2) :: fs2) ++ rest =
              ',' :: (openPad gap depth ++ (printField gap depth k2 v2 ++
                (printTailO gap depth fs2 ++ rest))) from by
            simp [printTailO]]
          exact skipWs_cons_notws _ _ (by decide)
        simp only [hsk3]
        have hfieldhead2 : printField gap depth k2 v2 ++
            (printTailO gap depth fs2 ++ rest) =
            '"' :: (escapeString k2.data ++
              ('"' :: (':' :: (colonPad gap ++
                (printVal gap (depth + 1) v2 ++
                  (printTailO gap depth fs2 ++ rest)))))) := by
          simp [printField, jsonQuote]
        have hsk4 : skipWs (openPad gap depth ++
            (printField gap depth k2 v2 ++
              (printTailO gap depth fs2 ++ rest))) =
            printField gap depth k2 v2 ++
              (printTailO gap depth fs2 ++ rest) := by
          rw [skipWs_append_ws _ _ (openPad_ws gap depth)]
          rw [hfieldhead2]
          exact skipWs_cons_notws _ _ (by decide)
        have hff : fieldsFuel ((k2, v2) :: fs2) =
            1 + jfuel v2 + fieldsFuel fs2 := by
          simp [fieldsFuel]
        have hp := jfuel_pos v
        have hR := ihR k2 v2 fs2 gap depth rest (by omega) hrest
        simp [hsk4, hR, string_mk_data]


/-! ## Codec correctness: fuel adequacy and the round trip -/

theorem printVal_length_pos (gap depth : Nat) (v : JsonVal) :
    1 ≤ (printVal gap depth v).length := by
  obtain ⟨c, t, hc, _, _, _⟩ := printVal_head gap depth v
  rw [hc]
  simp

mutual

theorem jfuel_le_print : ∀ (v : JsonVal) (gap depth : Nat),
    jfuel v ≤ 2 * (printVal gap depth v).length
  | .null, gap, depth => by simp [jfuel, printVal, nullChars]
  | .bool b, gap, depth => by
    cases b <;> simp [jfuel, printVal, trueChars, falseChars]
  | .num n, gap, depth => by
    have h := printVal_length_pos gap depth (.num n)
    simp only [jfuel]
    omega
  | .str s, gap, depth => by
    have h := printVal_length_pos gap depth (.str s)
    simp only [jfuel]
    omega
  | .arr [], gap, depth => by simp [jfuel, listFuel, printVal]
  | .arr (v :: vs), gap, depth => by
    have h1 := jfuel_le_print v gap (depth + 1)
    have h2 := listFuel_le_tailA vs gap depth
    simp only [jfuel, listFuel]
    simp only [printVal, List.length_cons, List.length_append]
    omega
  | .obj [], gap, depth => by simp [jfuel, fieldsFuel, printVal]
  | .obj ((k, v) :: fs), gap, depth => by
    have h1 := jfuel_le_print v gap (depth + 1)
    have h2 := fieldsFuel_le_tailO fs gap depth
    simp only [jfuel, fieldsFuel]
    simp only [printVal, printField, jsonQuote, List.length_cons,
      List.length_append]
    omega

theorem listFuel_le_tailA : ∀ (vs : List JsonVal) (gap depth : Nat),
    listFuel vs ≤ 2 * (printTailA gap depth vs).length
  | [], gap, depth => by
    simp [listFuel, printTailA, List.length_append]
    omega
  | v :: vs, gap, depth => by
    have h1 := jfuel_le_print v gap (depth + 1)
    have h2 := listFuel_le_tailA vs gap depth
    simp only [listFuel]
    simp only [printTailA, List.length_cons, List.length_append]
    omega

theorem fieldsFuel_le_tailO : ∀ (fs : List (String × JsonVal)) (gap depth : Nat),
    fieldsFuel fs ≤ 2 * (printTailO gap depth fs).length
  | [], gap, depth => by
    simp [fieldsFuel, printTailO, List.length_append]
    omega
  | (k, v) :: fs, gap, depth => by
    have h1 := jfuel_le_print v gap (depth + 1)
    have h2 := fieldsFuel_le_tailO fs gap depth
    simp only [fieldsFuel]
    simp only [printTailO, printField, jsonQuote, List.length_cons,
      List.length_append]
    omega

end

theorem jsonParse_stringifyData (cfg : Config) (v : JsonVal) :
    jsonParse (stringifyData cfg v) = some v := by
  have hdata : (stringifyData cfg v).data = printVal cfg.indentation 0 v := rfl
  have hsk : skipWs (printVal cfg.indentation 0 v) =
      printVal cfg.indentation 0 v := by
    obtain ⟨c, t, hc, hws, _, _⟩ := printVal_head cfg.indentation 0 v
    rw [hc]
    exact skipWs_cons_notws _ _ hws
  have hfuel : jfuel v ≤ 2 * (stringifyData cfg v).length + 2 := by
    have h := jfuel_le_print v cfg.indentation 0
    have hlen : (stringifyData cfg v).length =
        (printVal cfg.indentation 0 v).length := rfl
    omega
  have hp := (parse_print (2 * (stringifyData cfg v).length + 2)).1 v
    cfg.indentation 0 [] hfuel rfl
  rw [List.append_nil] at hp
  unfold jsonParse
  rw [hdata, hsk, hp]
  rfl

/-! ## Claim theorems about the codec round trip and corrupt loads -/

/-- Claim C7 (counterexample). The claim states that saving any
serializable value tree and loading it back yields a deep-equal value.
The well-formed tree with a single `__proto__` field serializes to
ordinary JSON text, but the TypeScript load parses it with `sjson.parse`
(secure-json-parse at its default `protoAction: 'error'`), which rejects
any tree carrying an own `__proto__` member: reading the saved text back
through `initializeData` fails with the parse error instead of returning
the value that was saved. -/
theorem tsLoad_rejects_saved_proto_key :
    wfVal (JsonVal.obj [("__proto__", JsonVal.num 1)]) = true ∧
    initializeData {} (some (stringifyData {}
        (JsonVal.obj [("__proto__", JsonVal.num 1)]))) =
      Except.error LoadError.parseError := by
  constructor
  · simp [wfVal, wfFields, keysNodupB]
  · have h := jsonParse_stringifyData {}
      (JsonVal.obj [("__proto__", JsonVal.num 1)])
    have hf : sjsonForbidden (JsonVal.obj [("__proto__", JsonVal.num 1)]) =
        true := by
      simp [sjsonForbidden, sjsonForbiddenFields, hasOwnPrototypeField]
    simp [initializeData, sjsonParse, h, hf]

/-- Claim C7 (amended). Writing a well-formed value tree with the store's
save (serializing it with the configured indentation) and loading the file
text back yields the original value through the legacy constructor load
(`JSON.parse`, `src/index.js` line 190) for every such tree; through the
TypeScript `initializeData` the round trip additionally requires the tree
to carry none of the prototype-poisoning keys (`__proto__`, or
`constructor` with a `prototype` member) that secure-json-parse rejects
by default, and holds for every such tree and indentation setting. -/
theorem save_load_roundtrip (cfg : Config) (v : JsonVal)
    (_hwf : wfVal v = true) :
    loadTargetJs (some (stringifyData cfg v)) = Except.ok v ∧
      (sjsonForbidden v = false →
        initializeData cfg (some (stringifyData cfg v)) = Except.ok v) := by
  have h := jsonParse_stringifyData cfg v
  constructor
  · simp [loadTargetJs, h]
  · intro hs
    simp [initializeData, sjsonParse, h, hs]

theorem save_load_roundtrip_witness :
    loadTargetJs (some (stringifyData {}
        (JsonVal.obj [("a", JsonVal.arr [JsonVal.num 1, JsonVal.str "x"]),
          ("b", JsonVal.bool true)]))) =
      Except.ok (JsonVal.obj [("a", JsonVal.arr [JsonVal.num 1,
        JsonVal.str "x"]), ("b", JsonVal.bool true)]) ∧
    initializeData {} (some (stringifyData {}
        (JsonVal.obj [("a", JsonVal.arr [JsonVal.num 1, JsonVal.str "x"]),
          ("b", JsonVal.bool true)]))) =
      Except.ok (JsonVal.obj [("a", JsonVal.arr [JsonVal.num 1,
        JsonVal.str "x"]), ("b", JsonVal.bool true)]) :=
  ⟨(save_load_roundtrip {}
      (JsonVal.obj [("a", JsonVal.arr [JsonVal.num 1, JsonVal.str "x"]),
        ("b", JsonVal.bool true)])
      (by simp [wfVal, wfList, wfFields, keysNodupB])).1,
    (save_load_roundtrip {}
      (JsonVal.obj [("a", JsonVal.arr [JsonVal.num 1, JsonVal.str "x"]),
        ("b", JsonVal.bool true)])
      (by simp [wfVal, wfList, wfFields, keysNodupB])).2
      (by simp [sjsonForbidden, sjsonForbiddenList, sjsonForbiddenFields,
        hasOwnPrototypeField])⟩

/-- Claim C3 (counterexample). The claim states that opening a Store
against an existing malformed file never yields the empty mapping. With
`throwErrors: false`, `initializeData` of `src/src/index.ts` catches the
parse failure and silently returns the empty mapping for the malformed
content consisting of a lone opening brace. -/
theorem corrupt_load_swallowed :
    initializeData { throwErrors := false } (some "\x7b") =
      Except.ok (JsonVal.obj []) := rfl

/-- Claim C3 (amended): with `throwErrors` enabled (the default), opening
against an existing malformed file fails with the parse error propagated
to the caller and never fabricates an empty store, and only an absent
file yields the empty mapping; the legacy implementation (`src/index.js`)
always propagates the parse error. With `throwErrors` disabled the
TypeScript implementation instead swallows the error and returns the
empty mapping. -/
theorem corrupt_load_amended (cfg : Config) (content : String) :
    (cfg.throwErrors = true → jsonParse content = none →
      initializeData cfg (some content) = Except.error LoadError.parseError) ∧
    initializeData cfg none = Except.ok (JsonVal.obj []) ∧
    (jsonParse content = none →
      loadTargetJs (some content) = Except.error LoadError.parseError) := by
  refine ⟨?_, rfl, ?_⟩
  · intro ht hp
    simp [initializeData, sjsonParse, hp, ht]
  · intro hp
    simp [loadTargetJs, hp]

theorem corrupt_load_amended_witness :
    initializeData {} (some "\x7b") = Except.error LoadError.parseError ∧
      loadTargetJs (some "\x7b") = Except.error LoadError.parseError :=
  ⟨(corrupt_load_amended {} "\x7b").1 rfl rfl,
    (corrupt_load_amended {} "\x7b").2.2 rfl⟩

end Veloce
